import Mathlib

/-!
Shallow embedding of the runtime telemetry streaming engine of the
esp32-c6-agentic-firmware repository.

Main modelled sources:
* `src/lessons/08-uart-gdb-tandem/src/bin/memory_streamer_v2.rs`
  (stream table, `should_sample`, `add_stream`, `remove_stream`,
  `sample_and_print`, `process_command`),
* `src/lessons/07-gdb-debugging/src/cli.rs` (`parse_command`),
* `src/lessons-archive/08-uart-gdb-tandem/src/bin/main.rs`
  (`VarType`, `StreamSlot`, `StreamSlot::read_safe`).

Machine integers are modelled as `Nat`: `u32`/`u64`/`usize` values are
non-negative and every arithmetic step of the modelled code is overflow-free
on the inputs the theorems quantify over (where Rust subtraction `now_ms -
last_sample_ms` could underflow, the theorems carry the hypothesis
`last_sample_ms ≤ now_ms`, which holds along every monotone tick sequence,
so `Nat` truncated subtraction agrees with the `u64` operation).
Memory is modelled as a pure byte map `Nat → Nat`; each function returns,
next to its result, the list of addresses it dereferences, so that the
safety claims can speak about which bytes are read.
-/

namespace MemStreamer

/-- Maximum number of concurrent streams (`MAX_STREAMS` in
`memory_streamer_v2.rs`). -/
def MAX_STREAMS : Nat := 16

/-- Start of the ESP32-C6 SRAM window (`RAM_START` in the archived
`main.rs`; the literal `0x4080_0000` in `memory_streamer_v2.rs`). -/
def RAM_START : Nat := 0x40800000

/-- End (exclusive) of the ESP32-C6 SRAM window (`RAM_END`; the literal
`0x4088_0000`). -/
def RAM_END : Nat := 0x40880000

/-- Struct `StreamConfig` from `memory_streamer_v2.rs`: one stream-table entry. -/
structure StreamConfig where
  addr : Nat
  size : Nat
  rate_hz : Nat
  last_sample_ms : Nat
  enabled : Bool
deriving DecidableEq, Repr

/-- Constructor `StreamConfig::new()`: the all-zero disabled entry. -/
def StreamConfig.new : StreamConfig :=
  { addr := 0, size := 0, rate_hz := 0, last_sample_ms := 0, enabled := false }

/-- Method `StreamConfig::should_sample(&mut self, now_ms)`: returns the boolean
result together with the updated entry (the Rust method mutates
`self.last_sample_ms` in the `true` branch only). -/
def StreamConfig.should_sample (s : StreamConfig) (now_ms : Nat) :
    Bool × StreamConfig :=
  if !s.enabled || s.rate_hz == 0 then (false, s)
  else
    let interval_ms := 1000 / s.rate_hz
    if interval_ms ≤ now_ms - s.last_sample_ms then
      (true, { s with last_sample_ms := now_ms })
    else
      (false, s)

/-- The initial all-empty stream table (`static mut STREAMS`). -/
def emptyTable : List StreamConfig := List.replicate MAX_STREAMS StreamConfig.new

/-- Function `add_stream(addr, size, rate_hz)`: scan for the first `!enabled` entry,
populate it (`last_sample_ms = 0`, `enabled = true`).  Result component
`none` models `Ok(())`, `some msg` models `Err(msg)`. -/
def add_stream (tbl : List StreamConfig) (addr size rate_hz : Nat) :
    List StreamConfig × Option String :=
  match tbl with
  | [] => ([], some "Max streams reached")
  | s :: rest =>
    if s.enabled then
      let r := add_stream rest addr size rate_hz
      (s :: r.1, r.2)
    else
      ({ addr := addr, size := size, rate_hz := rate_hz,
         last_sample_ms := 0, enabled := true } :: rest, none)

/-- Function `remove_stream(addr)`: disable the first enabled entry whose address
matches; `none` models `Ok(())`, `some msg` models `Err(msg)`. -/
def remove_stream (tbl : List StreamConfig) (addr : Nat) :
    List StreamConfig × Option String :=
  match tbl with
  | [] => ([], some "Stream not found")
  | s :: rest =>
    if s.enabled && s.addr == addr then
      ({ s with enabled := false } :: rest, none)
    else
      let r := remove_stream rest addr
      (s :: r.1, r.2)

/-- Output records of the engine, one constructor per `println!` form of
`memory_streamer_v2.rs` that answers a command or reports a sample.
`data` carries the sampled bytes (`DATA|addr=...|hex=...`, the bytes are
rendered two lower-case hex characters each via `HEX_CHARS`);
`errRange` is `ERROR|addr=...|msg=Out of SRAM range`. -/
inductive Rec where
  | data (addr : Nat) (bytes : List Nat)
  | errRange (addr : Nat)
  | pong
  | okStream (addr : Nat)
  | errStream (msg : String)
  | errInvalidParams
  | okStop (addr : Nat)
  | errStop (msg : String)
  | helpRec
  | varsRec
  | errUnknown (verb : String)
deriving DecidableEq, Repr

/-- Whether the printed line of a record starts with `OK|` or `ERROR|`
(`pong` prints `PONG`, `helpRec` prints `HELP|...`, `varsRec` prints
`VARS|...`, `data` prints `DATA|...`). -/
def Rec.isOkOrError : Rec → Bool
  | .okStream _ => true
  | .errStream _ => true
  | .errInvalidParams => true
  | .okStop _ => true
  | .errStop _ => true
  | .errRange _ => true
  | .errUnknown _ => true
  | .data _ _ => false
  | .pong => false
  | .helpRec => false
  | .varsRec => false

/-- Function `sample_and_print(stream)`: validate the start address against the SRAM
window, then read `min(size, 64)` bytes and emit one `DATA` record.  The
second component is the list of addresses dereferenced (the Rust loop does
`ptr.add(i).read_volatile()` for `i in 0..stream.size.min(64)`). -/
def sample_and_print (mem : Nat → Nat) (s : StreamConfig) : Rec × List Nat :=
  if s.addr < RAM_START ∨ RAM_END ≤ s.addr then
    (.errRange s.addr, [])
  else
    let idxs := List.range (min s.size 64)
    (.data s.addr (idxs.map fun i => mem (s.addr + i)),
     idxs.map fun i => s.addr + i)

/-- The sampling pass of one tick of the main loop:
`for stream in STREAMS.iter_mut() { if stream.should_sample(now) {
sample_and_print(stream) } }`.  Returns the updated table, the emitted
records, and all dereferenced addresses, in table index order. -/
def sampling_pass (mem : Nat → Nat) (tbl : List StreamConfig) (now : Nat) :
    List StreamConfig × List Rec × List Nat :=
  match tbl with
  | [] => ([], [], [])
  | s :: rest =>
    let fired := s.should_sample now
    let here := if fired.1 then
        let out := sample_and_print mem fired.2
        ([out.1], out.2)
      else (([] : List Rec), ([] : List Nat))
    let r := sampling_pass mem rest now
    (fired.2 :: r.1, here.1 ++ r.2.1, here.2 ++ r.2.2)

/-!
Command parsing.  Rust's `str::split_whitespace` is modelled by a direct
recursion over the character list, splitting on Rust's
`char::is_whitespace` (the Unicode `White_Space` property), which is wider
than Lean's `Char.isWhitespace`: it also covers vertical tab, form feed,
NEL, and the Unicode space separators.  Lean strings are always valid
text, which models the `Ok` branch of the `core::str::from_utf8` check.
-/

/-- Rust's `char::is_whitespace`: the Unicode `White_Space` property, by
its code-point list (U+0009..U+000D, U+0020, U+0085, U+00A0, U+1680,
U+2000..U+200A, U+2028, U+2029, U+202F, U+205F, U+3000). -/
def isRustWhitespace (c : Char) : Bool :=
  let n := c.toNat
  (decide (0x09 ≤ n) && decide (n ≤ 0x0D)) || n == 0x20 ||
    n == 0x85 || n == 0xA0 || n == 0x1680 ||
    (decide (0x2000 ≤ n) && decide (n ≤ 0x200A)) ||
    n == 0x2028 || n == 0x2029 || n == 0x202F || n == 0x205F || n == 0x3000

/-- Collects maximal runs of non-whitespace characters, as
`split_whitespace` does; `acc` is the current run, reversed. -/
def splitWsAux : List Char → List Char → List String
  | [], acc => if acc = [] then [] else [String.mk acc.reverse]
  | c :: cs, acc =>
    if isRustWhitespace c then
      if acc = [] then splitWsAux cs []
      else String.mk acc.reverse :: splitWsAux cs []
    else
      splitWsAux cs (c :: acc)

/-- The whitespace-separated tokens of a line
(`cmd_str.split_whitespace()`). -/
def tokens (line : String) : List String := splitWsAux line.data []

/-- The numeric value of one digit character under `base`, as
`u32::from_str_radix` accepts it (`0-9`, and for base 16 also `a-f`,
`A-F`). -/
def digitVal (base : Nat) (c : Char) : Option Nat :=
  let v :=
    if '0' ≤ c ∧ c ≤ '9' then some (c.toNat - '0'.toNat)
    else if 'a' ≤ c ∧ c ≤ 'f' then some (c.toNat - 'a'.toNat + 10)
    else if 'A' ≤ c ∧ c ≤ 'F' then some (c.toNat - 'A'.toNat + 10)
    else none
  match v with
  | some d => if d < base then some d else none
  | none => none

/-- Accumulates the value of a digit string; any non-digit character makes
the whole parse fail, as in Rust. -/
def parseDigitsAux (base : Nat) : List Char → Nat → Option Nat
  | [], acc => some acc
  | c :: cs, acc =>
    match digitVal base c with
    | some d => parseDigitsAux base cs (acc * base + d)
    | none => none

/-- Rust's unsigned `from_str_radix` on a character list: one optional
leading `+`, then at least one digit; values `≥ bound` model the overflow
error. -/
def parseUnsigned (base bound : Nat) (cs : List Char) : Option Nat :=
  let cs := match cs with
    | '+' :: rest => rest
    | other => other
  if cs = [] then none
  else
    match parseDigitsAux base cs 0 with
    | some v => if v < bound then some v else none
    | none => none

/-- Exclusive upper bound of `u32` (also of `usize` on the 32-bit
ESP32-C6). -/
def U32B : Nat := 2 ^ 32

/-- The address-literal rule of `process_command`: a `0x`-prefixed
hexadecimal literal is parsed with `u32::from_str_radix(.., 16)`, anything
else with the decimal `str::parse::<u32>()`. -/
def parseAddr (s : String) : Option Nat :=
  match s.data with
  | '0' :: 'x' :: rest => parseUnsigned 16 U32B rest
  | _ => parseUnsigned 10 U32B s.data

/-- Rust `str::parse` for the decimal `<size>` (usize) and `<rate_hz>` (u32)
arguments. -/
def parseDec (s : String) : Option Nat := parseUnsigned 10 U32B s.data

/-- The verb dispatch of `process_command`, on the token list.  `none`
models a panic: collecting more than 8 tokens into
`heapless::Vec<&str, 8>` panics in `Vec::from_iter` (`"Vec::from_iter
overflow"`).  Guarded match arms that fail their length guard fall through
to the `_` arm (`ERROR|msg=Unknown command: ...`), exactly as in the Rust
`match`. -/
def dispatch (tbl : List StreamConfig) :
    List String → Option (List Rec × List StreamConfig)
  | [] => some ([], tbl)
  | verb :: args =>
    if 8 < (verb :: args).length then none
    else
      if verb = "PING" then some ([.pong], tbl)
      else if verb = "STREAM" then
        match args with
        | a :: sz :: r :: _ =>
          match parseAddr a, parseDec sz, parseDec r with
          | some addr, some size, some rate =>
            let res := add_stream tbl addr size rate
            match res.2 with
            | none => some ([.okStream addr], res.1)
            | some e => some ([.errStream e], res.1)
          | _, _, _ => some ([.errInvalidParams], tbl)
        | _ => some ([.errUnknown verb], tbl)
      else if verb = "STOP" then
        match args with
        | a :: _ =>
          match parseAddr a with
          | some addr =>
            let res := remove_stream tbl addr
            match res.2 with
            | none => some ([.okStop addr], res.1)
            | some e => some ([.errStop e], res.1)
          | none => some ([], tbl)
        | [] => some ([.errUnknown verb], tbl)
      else if verb = "HELP" then some ([.helpRec], tbl)
      else if verb = "LIST" then some ([.varsRec], tbl)
      else some ([.errUnknown verb], tbl)

/-- Function `process_command(cmd)` of `memory_streamer_v2.rs`, on one text line:
split on whitespace, return silently on an empty token list, otherwise
dispatch on the verb.  Returns the emitted records and the updated stream
table; `none` models a panic. -/
def process_command (tbl : List StreamConfig) (line : String) :
    Option (List Rec × List StreamConfig) :=
  dispatch tbl (tokens line)

/-- Constant `MAX_ARGS` of `src/lessons/07-gdb-debugging/src/cli.rs`. -/
def MAX_ARGS : Nat := 4

/-- The argument loop of `parse_command`: `args.push(arg)` until the
heapless `Vec<&str, MAX_ARGS>` is full, then `break`. -/
def pushArgs : List String → List String → List String
  | [], args => args
  | a :: rest, args =>
    if args.length < MAX_ARGS then pushArgs rest (args ++ [a]) else args

/-- Function `parse_command(line)` of `cli.rs`: trim, return `None` on an empty
line, otherwise first token is the name and up to `MAX_ARGS` following
tokens are the arguments (trimming before splitting does not change the
token list, so the model splits directly). -/
def parse_command (line : String) : Option (String × List String) :=
  match tokens line with
  | [] => none
  | n :: rest => some (n, pushArgs rest [])

/-!
The typed slot system of the archived
`src/lessons-archive/08-uart-gdb-tandem/src/bin/main.rs`.
-/

/-- Enum `VarType`: the supported variable types. -/
inductive VarType where
  | i32 | u32 | f32 | i16 | u16 | i8 | u8
deriving DecidableEq, Repr

/-- Method `VarType::alignment()`. -/
def VarType.alignment : VarType → Nat
  | .i32 | .u32 | .f32 => 4
  | .i16 | .u16 => 2
  | .i8 | .u8 => 1

/-- Method `VarType::size()` in bytes. -/
def VarType.size : VarType → Nat
  | .i32 | .u32 | .f32 => 4
  | .i16 | .u16 => 2
  | .i8 | .u8 => 1

/-- Enum `SlotError`. -/
inductive SlotError where
  | outOfBounds (addr : Nat)
  | misaligned (addr : Nat) (required_alignment : Nat)
deriving DecidableEq, Repr

/-- Enum `SlotValue`: each constructor carries the raw little-endian bit
pattern of the bytes read, as a `Nat` (the Rust code reinterprets the same
bytes as `i32`/`f32`/..., which is a bijection on bit patterns). -/
inductive SlotValue where
  | i32V (bits : Nat)
  | u32V (bits : Nat)
  | f32V (bits : Nat)
  | i16V (bits : Nat)
  | u16V (bits : Nat)
  | i8V (bits : Nat)
  | u8V (bits : Nat)
deriving DecidableEq, Repr

/-- Tags a raw bit pattern per `type_id`, following the `match` in the
success branch of `read_safe`. -/
def tagValue : VarType → Nat → SlotValue
  | .i32, b => .i32V b
  | .u32, b => .u32V b
  | .f32, b => .f32V b
  | .i16, b => .i16V b
  | .u16, b => .u16V b
  | .i8, b => .i8V b
  | .u8, b => .u8V b

/-- A little-endian load of `n` bytes at `addr` (the ESP32-C6 RISC-V core
is little-endian). -/
def readLE (mem : Nat → Nat) (addr : Nat) : Nat → Nat
  | 0 => 0
  | n + 1 => mem addr + 256 * readLE mem (addr + 1) n

/-- Struct `StreamSlot`: a typed pointer to a variable (the static `name` label
plays no role in `read_safe` and is omitted). -/
structure StreamSlot where
  ptr : Nat
  type_id : VarType
deriving DecidableEq, Repr

/-- Method `StreamSlot::read_safe()`: bounds check on the start address, then
alignment, then the end-of-RAM check, then one dereference of
`type_id.size()` bytes.  The second component records the single performed
read as `some (address, size)`, or `none` when nothing was dereferenced. -/
def read_safe (mem : Nat → Nat) (slot : StreamSlot) :
    Except SlotError SlotValue × Option (Nat × Nat) :=
  let addr := slot.ptr
  if addr < RAM_START ∨ RAM_END ≤ addr then
    (.error (.outOfBounds addr), none)
  else
    let required_alignment := slot.type_id.alignment
    if addr % required_alignment ≠ 0 then
      (.error (.misaligned addr required_alignment), none)
    else
      let size := slot.type_id.size
      if RAM_END < addr + size then
        (.error (.outOfBounds (addr + size)), none)
      else
        (.ok (tagValue slot.type_id (readLE mem addr size)), some (addr, size))

/-!
Operation sequences on the stream table, for the reachability claims.
-/

/-- One table-mutating command: a successful parse of `STREAM a s r` or
`STOP a` applies one of these. -/
inductive Op where
  | add (addr size rate_hz : Nat)
  | remove (addr : Nat)
deriving DecidableEq, Repr

/-- Applies one operation to the table, discarding the response. -/
def applyOp (tbl : List StreamConfig) : Op → List StreamConfig
  | .add a s r => (add_stream tbl a s r).1
  | .remove a => (remove_stream tbl a).1

/-- Applies a sequence of operations in order. -/
def applyOps (tbl : List StreamConfig) (ops : List Op) : List StreamConfig :=
  ops.foldl applyOp tbl

/-- An operation requests a positive rate (removals vacuously). -/
def Op.posRate : Op → Prop
  | .add _ _ r => 0 < r
  | .remove _ => True

/-- The times at which a single entry fires, over a sequence of tick
times: each call threads the entry state returned by `should_sample`. -/
def fire_times (s : StreamConfig) : List Nat → List Nat
  | [] => []
  | t :: ts =>
    let r := s.should_sample t
    if r.1 then t :: fire_times r.2 ts else fire_times r.2 ts

/-!
Helper lemmas about the table operations and the sampling predicate.
-/

lemma should_sample_eq (s : StreamConfig) (now : Nat) :
    s.should_sample now =
      if s.enabled = true ∧ s.rate_hz ≠ 0 ∧
          1000 / s.rate_hz ≤ now - s.last_sample_ms then
        (true, { s with last_sample_ms := now })
      else (false, s) := by
  by_cases he : s.enabled <;> by_cases hr : s.rate_hz = 0 <;>
    by_cases hc : 1000 / s.rate_hz ≤ now - s.last_sample_ms <;>
      simp [StreamConfig.should_sample, he, hr, hc]

lemma should_sample_fst_iff (s : StreamConfig) (now : Nat) :
    (s.should_sample now).1 = true ↔
      s.enabled = true ∧ 0 < s.rate_hz ∧
        1000 / s.rate_hz ≤ now - s.last_sample_ms := by
  rw [should_sample_eq]
  by_cases hcond : s.enabled = true ∧ s.rate_hz ≠ 0 ∧
      1000 / s.rate_hz ≤ now - s.last_sample_ms
  · rw [if_pos hcond]
    simp [hcond.1, hcond.2.1, hcond.2.2, Nat.pos_iff_ne_zero]
  · rw [if_neg hcond]
    simp only [Bool.false_eq_true, false_iff]
    intro hfalse
    exact hcond ⟨hfalse.1, Nat.pos_iff_ne_zero.mp hfalse.2.1, hfalse.2.2⟩

lemma should_sample_snd_of_true (s : StreamConfig) (now : Nat)
    (h : (s.should_sample now).1 = true) :
    (s.should_sample now).2 = { s with last_sample_ms := now } := by
  rw [should_sample_eq] at h ⊢
  split at h
  · next hcond => rw [if_pos hcond]
  · simp at h

lemma should_sample_snd_of_false (s : StreamConfig) (now : Nat)
    (h : (s.should_sample now).1 = false) :
    (s.should_sample now).2 = s := by
  rw [should_sample_eq] at h ⊢
  split at h
  · simp at h
  · next hcond => rw [if_neg hcond]

lemma add_stream_all_enabled :
    ∀ (tbl : List StreamConfig), (∀ s ∈ tbl, s.enabled = true) →
      ∀ a sz r, add_stream tbl a sz r = (tbl, some "Max streams reached")
  | [], _, _, _, _ => rfl
  | x :: xs, h, a, sz, r => by
    have hx : x.enabled = true := h x (List.mem_cons_self x xs)
    have ih := add_stream_all_enabled xs
      (fun s hs => h s (List.mem_cons_of_mem x hs)) a sz r
    simp [add_stream, hx, ih]

lemma add_stream_append_enabled :
    ∀ (P rest : List StreamConfig), (∀ s ∈ P, s.enabled = true) →
      ∀ a sz r, add_stream (P ++ rest) a sz r =
        (P ++ (add_stream rest a sz r).1, (add_stream rest a sz r).2)
  | [], rest, _, a, sz, r => rfl
  | x :: xs, rest, h, a, sz, r => by
    have hx : x.enabled = true := h x (List.mem_cons_self x xs)
    have ih := add_stream_append_enabled xs rest
      (fun s hs => h s (List.mem_cons_of_mem x hs)) a sz r
    simp [add_stream, hx, ih]

lemma add_stream_cons_free (f : StreamConfig) (rest : List StreamConfig)
    (hf : f.enabled = false) (a sz r : Nat) :
    add_stream (f :: rest) a sz r =
      ({ addr := a, size := sz, rate_hz := r, last_sample_ms := 0,
         enabled := true } :: rest, none) := by
  simp [add_stream, hf]

lemma remove_stream_append_skip :
    ∀ (P rest : List StreamConfig) (a : Nat),
      (∀ s ∈ P, s.enabled = false ∨ s.addr ≠ a) →
      remove_stream (P ++ rest) a =
        (P ++ (remove_stream rest a).1, (remove_stream rest a).2)
  | [], rest, a, _ => rfl
  | x :: xs, rest, a, h => by
    have ih := remove_stream_append_skip xs rest a
      (fun s hs => h s (List.mem_cons_of_mem x hs))
    rcases h x (List.mem_cons_self x xs) with hx | hx <;>
      simp [remove_stream, hx, ih]

lemma remove_stream_cons_match (s : StreamConfig) (rest : List StreamConfig)
    (a : Nat) (h1 : s.enabled = true) (h2 : s.addr = a) :
    remove_stream (s :: rest) a = ({ s with enabled := false } :: rest, none) := by
  simp [remove_stream, h1, h2]

lemma add_stream_mem :
    ∀ (tbl : List StreamConfig) (a sz r : Nat) (x : StreamConfig),
      x ∈ (add_stream tbl a sz r).1 →
      x ∈ tbl ∨ x = { addr := a, size := sz, rate_hz := r,
                      last_sample_ms := 0, enabled := true }
  | [], _, _, _, _, hx => Or.inl hx
  | s :: rest, a, sz, r, x, hx => by
    by_cases hs : s.enabled = true
    · simp [add_stream, hs] at hx
      rcases hx with hx | hx
      · exact Or.inl (hx ▸ List.mem_cons_self s rest)
      · rcases add_stream_mem rest a sz r x hx with h | h
        · exact Or.inl (List.mem_cons_of_mem s h)
        · exact Or.inr h
    · rw [Bool.not_eq_true] at hs
      simp [add_stream, hs] at hx
      rcases hx with hx | hx
      · exact Or.inr hx
      · exact Or.inl (List.mem_cons_of_mem s hx)

lemma remove_stream_mem :
    ∀ (tbl : List StreamConfig) (a : Nat) (x : StreamConfig),
      x ∈ (remove_stream tbl a).1 → x ∈ tbl ∨ x.enabled = false
  | [], _, _, hx => Or.inl hx
  | s :: rest, a, x, hx => by
    by_cases hs : s.enabled = true ∧ s.addr = a
    · simp [remove_stream, hs.1, hs.2] at hx
      rcases hx with hx | hx
      · right; rw [hx]
      · exact Or.inl (List.mem_cons_of_mem s hx)
    · have hcond : (s.enabled && s.addr == a) = false := by
        rcases Decidable.not_and_iff_or_not.mp hs with h | h
        · simp [Bool.not_eq_true] at h
          simp [h]
        · simp [h]
      simp [remove_stream, hcond] at hx
      rcases hx with hx | hx
      · exact Or.inl (hx ▸ List.mem_cons_self s rest)
      · rcases remove_stream_mem rest a x hx with h | h
        · exact Or.inl (List.mem_cons_of_mem s h)
        · exact Or.inr h

lemma pushArgs_eq :
    ∀ (xs acc : List String),
      pushArgs xs acc = acc ++ xs.take (MAX_ARGS - acc.length)
  | [], acc => by simp [pushArgs]
  | x :: xs, acc => by
    by_cases h : acc.length < MAX_ARGS
    · have h4 : MAX_ARGS - acc.length = (MAX_ARGS - (acc.length + 1)) + 1 := by
        omega
      rw [pushArgs, if_pos h, pushArgs_eq xs (acc ++ [x]), h4]
      simp [List.take_succ_cons]
    · have h0 : MAX_ARGS - acc.length = 0 := by omega
      rw [pushArgs, if_neg h, h0]
      simp

lemma fire_times_chain :
    ∀ (ts : List Nat) (s : StreamConfig), List.Pairwise (· ≤ ·) ts →
      (∀ t ∈ ts, s.last_sample_ms ≤ t) →
      List.Chain' (fun a b => 1000 / s.rate_hz ≤ b - a) (fire_times s ts) ∧
      (∀ b, (fire_times s ts).head? = some b →
        1000 / s.rate_hz ≤ b - s.last_sample_ms)
  | [], s, _, _ => by simp [fire_times]
  | t :: ts, s, hmono, hlast => by
    rcases List.pairwise_cons.mp hmono with ⟨hle, hmono'⟩
    by_cases hf : (s.should_sample t).1 = true
    · have hsnd := should_sample_snd_of_true s t hf
      have hguard := (should_sample_fst_iff s t).mp hf
      have ih := fire_times_chain ts { s with last_sample_ms := t }
        hmono' (fun u hu => hle u hu)
      rw [fire_times, hf, if_pos rfl, hsnd]
      constructor
      · rw [List.chain'_cons']
        exact ⟨fun y hy => ih.2 y hy, ih.1⟩
      · intro b hb
        rw [List.head?_cons, Option.some_inj] at hb
        rw [← hb]
        exact hguard.2.2
    · rw [Bool.not_eq_true] at hf
      have hsnd := should_sample_snd_of_false s t hf
      have ih := fire_times_chain ts s hmono'
        (fun u hu => hlast u (List.mem_cons_of_mem t hu))
      rw [fire_times, hf]
      simpa [hsnd] using ih

lemma VarType.size_pos : ∀ t : VarType, 0 < t.size := by
  intro t; cases t <;> decide

lemma read_safe_valid (mem : Nat → Nat) (slot : StreamSlot)
    (h1 : RAM_START ≤ slot.ptr)
    (h2 : slot.ptr % slot.type_id.alignment = 0)
    (h3 : slot.ptr + slot.type_id.size ≤ RAM_END) :
    read_safe mem slot =
      (.ok (tagValue slot.type_id (readLE mem slot.ptr slot.type_id.size)),
       some (slot.ptr, slot.type_id.size)) := by
  have hsz := VarType.size_pos slot.type_id
  simp only [read_safe]
  rw [if_neg, if_neg, if_neg]
  · omega
  · exact not_not_intro h2
  · push_neg
    exact ⟨h1, by omega⟩

lemma read_safe_invalid (mem : Nat → Nat) (slot : StreamSlot)
    (h : ¬(RAM_START ≤ slot.ptr ∧ slot.ptr % slot.type_id.alignment = 0 ∧
        slot.ptr + slot.type_id.size ≤ RAM_END)) :
    (∃ e, (read_safe mem slot).1 = .error e) ∧ (read_safe mem slot).2 = none := by
  simp only [read_safe]
  by_cases h1 : slot.ptr < RAM_START ∨ RAM_END ≤ slot.ptr
  · rw [if_pos h1]
    exact ⟨⟨_, rfl⟩, rfl⟩
  · rw [if_neg h1]
    push_neg at h1
    by_cases h2 : slot.ptr % slot.type_id.alignment ≠ 0
    · rw [if_pos h2]
      exact ⟨⟨_, rfl⟩, rfl⟩
    · rw [if_neg h2]
      push_neg at h2
      by_cases h3 : RAM_END < slot.ptr + slot.type_id.size
      · rw [if_pos h3]
        exact ⟨⟨_, rfl⟩, rfl⟩
      · exact absurd ⟨h1.1, h2, Nat.le_of_not_lt h3⟩ h

/-- C1 (amended).  In the sampling pass, `sample_and_print` validates only
the start address of a due entry against the SRAM window
`[0x40800000, 0x40880000)`: an out-of-window start yields one `ERROR`
record and no memory read, while an in-window start is read for
`min(size, 64)` bytes even when `addr + min(size, 64)` extends past the
window end. -/
theorem C1_start_only_validation (mem : Nat → Nat) (s : StreamConfig) :
    (s.addr < RAM_START ∨ RAM_END ≤ s.addr →
      sample_and_print mem s = (.errRange s.addr, [])) ∧
    (RAM_START ≤ s.addr → s.addr < RAM_END →
      sample_and_print mem s =
        (.data s.addr ((List.range (min s.size 64)).map fun i => mem (s.addr + i)),
         (List.range (min s.size 64)).map fun i => s.addr + i)) := by
  constructor
  · intro h
    simp only [sample_and_print]
    rw [if_pos h]
  · intro h1 h2
    simp only [sample_and_print]
    rw [if_neg (by push_neg; exact ⟨h1, h2⟩)]

/-- C1 counterexample.  The entry `(addr = 0x4087FFFF, size = 2, 10 Hz)` is
due at `now = 1000` and `addr + min(size, 64) = 0x40880001` exceeds the
window end `0x40880000`, yet the tick emits a `DATA` record (no `ERROR`)
and dereferences address `0x40880000`, one byte past the window. -/
theorem C1_overrun_read_cx :
    sampling_pass (fun _ => 0) [⟨0x4087FFFF, 2, 10, 0, true⟩] 1000 =
      ([⟨0x4087FFFF, 2, 10, 1000, true⟩],
       [.data 0x4087FFFF [0, 0]],
       [0x4087FFFF, 0x40880000]) ∧
    RAM_END < 0x4087FFFF + min 2 64 ∧
    ((⟨0x4087FFFF, 2, 10, 0, true⟩ : StreamConfig).should_sample 1000).1 = true := by
  decide

/-- Witness for C1: a due entry at the out-of-window address `0` yields the
`ERROR` record and reads nothing. -/
theorem C1_start_only_validation_witness :
    sample_and_print (fun _ => 0) ⟨0, 4, 10, 0, true⟩ = (.errRange 0, []) :=
  (C1_start_only_validation (fun _ => 0) ⟨0, 4, 10, 0, true⟩).1 (by decide)

/-- C2.  `read_safe` dereferences the slot pointer only when
`RAM_START ≤ addr`, `addr % alignment = 0` and `addr + size ≤ RAM_END`
(`size` and `alignment` both determined by `type_id`); on a validation
failure it returns an error and performs no read, and on success it
performs exactly one read of `size` bytes and returns the value tagged per
`type_id`. -/
theorem C2_read_safe_spec (mem : Nat → Nat) (slot : StreamSlot) :
    ((read_safe mem slot).2 ≠ none →
      RAM_START ≤ slot.ptr ∧ slot.ptr % slot.type_id.alignment = 0 ∧
        slot.ptr + slot.type_id.size ≤ RAM_END) ∧
    (RAM_START ≤ slot.ptr → slot.ptr % slot.type_id.alignment = 0 →
      slot.ptr + slot.type_id.size ≤ RAM_END →
      read_safe mem slot =
        (.ok (tagValue slot.type_id (readLE mem slot.ptr slot.type_id.size)),
         some (slot.ptr, slot.type_id.size))) ∧
    (¬(RAM_START ≤ slot.ptr ∧ slot.ptr % slot.type_id.alignment = 0 ∧
        slot.ptr + slot.type_id.size ≤ RAM_END) →
      (∃ e, (read_safe mem slot).1 = .error e) ∧ (read_safe mem slot).2 = none) := by
  refine ⟨?_, ?_, read_safe_invalid mem slot⟩
  · intro h
    by_contra hcond
    exact h (read_safe_invalid mem slot hcond).2
  · intro h1 h2 h3
    exact read_safe_valid mem slot h1 h2 h3

/-- Witness for C2: a valid aligned `u32` slot at the window start is read
in full and tagged `U32`. -/
theorem C2_read_safe_spec_witness :
    read_safe (fun _ => 7) ⟨0x40800000, .u32⟩ =
      (.ok (tagValue VarType.u32 (readLE (fun _ => 7) 0x40800000 VarType.u32.size)),
       some (0x40800000, VarType.u32.size)) :=
  (C2_read_safe_spec (fun _ => 7) ⟨0x40800000, .u32⟩).2.1 (by decide) (by decide)
    (by decide)

/-- C3 counterexample.  The `i16` slot at `0x4087FFFF` is in-window but
misaligned, and its tail `0x4087FFFF + 2` exceeds `RAM_END`; the claim
demands `OutOfBounds` (bounds wins), but `read_safe` returns
`Misaligned`. -/
theorem C3_misaligned_tail_cx :
    read_safe (fun _ => 0) ⟨0x4087FFFF, .i16⟩ =
      (.error (.misaligned 0x4087FFFF 2), none) ∧
    RAM_START ≤ 0x4087FFFF ∧
    RAM_END < 0x4087FFFF + VarType.i16.size ∧
    (SlotError.misaligned 0x4087FFFF 2 ≠ SlotError.outOfBounds 0x4087FFFF ∧
     SlotError.misaligned 0x4087FFFF 2 ≠
       SlotError.outOfBounds (0x4087FFFF + VarType.i16.size)) :=
  ⟨by rfl, by decide, by decide, by decide, by decide⟩

/-- C3 (amended).  Validation checks the start bounds first (`OutOfBounds`
for `addr < RAM_START` or `addr ≥ RAM_END`, regardless of alignment), then
alignment (`Misaligned`), and only then the window-tail condition: for an
in-window misaligned address, `Misaligned` is returned even when
`addr + size > RAM_END`; `OutOfBounds (addr + size)` is returned only for
in-window aligned addresses whose tail exceeds the window. -/
theorem C3_check_order (mem : Nat → Nat) (slot : StreamSlot) :
    (slot.ptr < RAM_START ∨ RAM_END ≤ slot.ptr →
      (read_safe mem slot).1 = .error (.outOfBounds slot.ptr)) ∧
    (RAM_START ≤ slot.ptr → slot.ptr < RAM_END →
      slot.ptr % slot.type_id.alignment ≠ 0 →
      (read_safe mem slot).1 =
        .error (.misaligned slot.ptr slot.type_id.alignment)) ∧
    (RAM_START ≤ slot.ptr → slot.ptr < RAM_END →
      slot.ptr % slot.type_id.alignment = 0 →
      RAM_END < slot.ptr + slot.type_id.size →
      (read_safe mem slot).1 =
        .error (.outOfBounds (slot.ptr + slot.type_id.size))) := by
  refine ⟨?_, ?_, ?_⟩
  · intro h
    simp only [read_safe]
    rw [if_pos h]
  · intro h1 h2 h3
    simp only [read_safe]
    rw [if_neg (by push_neg; exact ⟨h1, h2⟩), if_pos h3]
  · intro h1 h2 h3 h4
    simp only [read_safe]
    rw [if_neg (by push_neg; exact ⟨h1, h2⟩), if_neg (not_not_intro h3),
      if_pos h4]

/-- Witness for C3: an in-window odd address used as a `u32` slot returns
`Misaligned`. -/
theorem C3_check_order_witness :
    (read_safe (fun _ => 0) ⟨0x40800001, .u32⟩).1 =
      .error (.misaligned 0x40800001 VarType.u32.alignment) :=
  (C3_check_order (fun _ => 0) ⟨0x40800001, .u32⟩).2.1 (by decide) (by decide)
    (by decide)

/-- C5 counterexample.  A `STREAM` command applied while the tick time is,
say, `500 ms` populates the first free entry with `last_sample_ms = 0`:
`add_stream` stores the constant `0`, not the current tick time baseline.
The difference is observable: the stored entry is immediately due at
`now = 500`, whereas an entry rebased to `500` (as the claim states) would
not be due before `600`. -/
theorem C5_last_sample_zero_cx :
    (add_stream emptyTable 0x40800000 4 10).1.head? =
      some { addr := 0x40800000, size := 4, rate_hz := 10,
             last_sample_ms := 0, enabled := true } ∧
    ((⟨0x40800000, 4, 10, 0, true⟩ : StreamConfig).should_sample 500).1 = true ∧
    ((⟨0x40800000, 4, 10, 500, true⟩ : StreamConfig).should_sample 500).1 = false := by
  decide

/-- C5 (amended).  A successful add scans the table in index order,
populates the first entry with `enabled = false`, sets that entry's
`last_sample_ms` to the constant `0` (not the current tick time), and sets
`enabled = true`. -/
theorem C5_add_populates_first_free (P rest : List StreamConfig)
    (f : StreamConfig) (a sz r : Nat)
    (hP : ∀ s ∈ P, s.enabled = true) (hf : f.enabled = false) :
    add_stream (P ++ f :: rest) a sz r =
      (P ++ { addr := a, size := sz, rate_hz := r, last_sample_ms := 0,
              enabled := true } :: rest, none) := by
  rw [add_stream_append_enabled P (f :: rest) hP a sz r,
    add_stream_cons_free f rest hf a sz r]

/-- Witness for C5: adding to the all-empty table populates entry 0 with
`last_sample_ms = 0`. -/
theorem C5_add_populates_first_free_witness :
    add_stream (([] : List StreamConfig) ++
        StreamConfig.new :: List.replicate 15 StreamConfig.new) 0x40800000 4 10 =
      ([] ++ { addr := 0x40800000, size := 4, rate_hz := 10,
               last_sample_ms := 0, enabled := true } ::
        List.replicate 15 StreamConfig.new, none) :=
  C5_add_populates_first_free [] (List.replicate 15 StreamConfig.new)
    StreamConfig.new 0x40800000 4 10 (by decide) (by decide)

/-- C6 counterexample.  One `add` with requested rate `0` (a sequence of a
single operation from the all-empty table) leaves entry 0 with
`enabled = true` and `rate_hz = 0`, so the claimed invariant fails. -/
theorem C6_rate_zero_enabled_cx :
    (applyOps emptyTable [Op.add 0x40800000 4 0]).head? =
      some { addr := 0x40800000, size := 4, rate_hz := 0,
             last_sample_ms := 0, enabled := true } ∧
    ¬(∀ s ∈ applyOps emptyTable [Op.add 0x40800000 4 0],
        s.enabled = true → 0 < s.rate_hz) := by
  decide

/-- C6 (amended).  `add_stream` does not validate the requested rate, so
the invariant holds only for sequences whose adds all request a positive
rate: starting from the all-empty table, after any sequence of add and
remove operations in which every add has `rate_hz > 0`, every entry with
`enabled = true` has `rate_hz > 0`.  (An enabled `rate_hz = 0` entry is
possible but is never sampled: `should_sample` returns `false` for it.) -/
theorem C6_posrate_invariant (ops : List Op)
    (hpos : ∀ op ∈ ops, op.posRate) :
    ∀ s ∈ applyOps emptyTable ops, s.enabled = true → 0 < s.rate_hz := by
  have key : ∀ (ops : List Op) (tbl : List StreamConfig),
      (∀ op ∈ ops, op.posRate) →
      (∀ s ∈ tbl, s.enabled = true → 0 < s.rate_hz) →
      ∀ s ∈ applyOps tbl ops, s.enabled = true → 0 < s.rate_hz := by
    intro ops
    induction ops with
    | nil => intro tbl _ hinv; exact hinv
    | cons op rest ih =>
      intro tbl hops hinv
      refine ih (applyOp tbl op) (fun o ho => hops o (List.mem_cons_of_mem op ho)) ?_
      have hop := hops op (List.mem_cons_self op rest)
      cases op with
      | add a sz r =>
        intro s hs hen
        rcases add_stream_mem tbl a sz r s hs with h | h
        · exact hinv s h hen
        · rw [h]
          exact hop
      | remove a =>
        intro s hs hen
        rcases remove_stream_mem tbl a s hs with h | h
        · exact hinv s h hen
        · rw [hen] at h
          cases h
  exact key ops emptyTable hpos (by decide)

/-- Witness for C6: a positive-rate add followed by an unrelated remove
keeps every enabled entry's rate positive. -/
theorem C6_posrate_invariant_witness :
    0 < ({ addr := 0x40800000, size := 4, rate_hz := 10, last_sample_ms := 0,
           enabled := true } : StreamConfig).rate_hz :=
  C6_posrate_invariant [Op.add 0x40800000 4 10, Op.remove 0x40900000]
    (by intro op hop; fin_cases hop <;> norm_num [Op.posRate])
    { addr := 0x40800000, size := 4, rate_hz := 10, last_sample_ms := 0,
      enabled := true }
    (by decide) (by decide)

/-- C7.  When every entry of the full (`MAX_STREAMS`-long) table is
enabled, `add_stream` returns the capacity error and leaves every entry
exactly as it was, and the table still holds exactly `MAX_STREAMS` enabled
entries. -/
theorem C7_capacity_unchanged (tbl : List StreamConfig) (a sz r : Nat)
    (hlen : tbl.length = MAX_STREAMS) (hen : ∀ s ∈ tbl, s.enabled = true) :
    add_stream tbl a sz r = (tbl, some "Max streams reached") ∧
    tbl.countP (fun s => s.enabled) = MAX_STREAMS := by
  refine ⟨add_stream_all_enabled tbl hen a sz r, ?_⟩
  rw [← hlen]
  exact List.countP_eq_length.mpr hen

/-- The table produced by registering `MAX_STREAMS` distinct streams into
the empty table (used to witness C7's `MAX_STREAMS + 1`-st add). -/
def fullTable : List StreamConfig :=
  applyOps emptyTable
    ((List.range MAX_STREAMS).map fun i => Op.add (0x40800000 + 4 * i) 4 10)

/-- Witness for C7: the 17th distinct add on the full table fails with the
capacity error and changes nothing. -/
theorem C7_capacity_unchanged_witness :
    add_stream fullTable 0x40900000 8 100 =
      (fullTable, some "Max streams reached") ∧
    fullTable.countP (fun s => s.enabled) = MAX_STREAMS :=
  C7_capacity_unchanged fullTable 0x40900000 8 100 (by decide) (by decide)

/-- C8.  `should_sample` returns `true`, and then rebases
`last_sample_ms := now`, exactly when `enabled ∧ rate_hz > 0 ∧
now - last_sample_ms ≥ 1000 / rate_hz` (integer division); it is always
`false` for a disabled or `rate_hz = 0` entry; and over any monotone
sequence of `now` values it never fires twice within one interval window:
consecutive fire times differ by at least `1000 / rate_hz`.  (The
hypothesis `last_sample_ms ≤ now` keeps `Nat` subtraction faithful to the
`u64` subtraction of the source; it holds on every monotone tick
sequence.) -/
theorem C8_due_spec :
    (∀ (s : StreamConfig) (now : Nat), s.last_sample_ms ≤ now →
      ((s.should_sample now).1 = true ↔
        s.enabled = true ∧ 0 < s.rate_hz ∧
          1000 / s.rate_hz ≤ now - s.last_sample_ms) ∧
      ((s.should_sample now).1 = true →
        (s.should_sample now).2 = { s with last_sample_ms := now }) ∧
      (s.enabled = false ∨ s.rate_hz = 0 → (s.should_sample now).1 = false)) ∧
    (∀ (s : StreamConfig) (ts : List Nat), List.Pairwise (· ≤ ·) ts →
      (∀ t ∈ ts, s.last_sample_ms ≤ t) →
      List.Chain' (fun a b => 1000 / s.rate_hz ≤ b - a) (fire_times s ts)) := by
  constructor
  · intro s now _
    refine ⟨should_sample_fst_iff s now, should_sample_snd_of_true s now, ?_⟩
    intro h
    rw [← Bool.not_eq_true]
    intro htrue
    rcases (should_sample_fst_iff s now).mp htrue with ⟨he, hr, _⟩
    rcases h with h | h
    · rw [he] at h
      cases h
    · omega
  · intro s ts hmono hlast
    exact (fire_times_chain ts s hmono hlast).1

/-- Witness for C8: a 10 Hz entry fires at `now = 100` from baseline `0`,
and over the tick times `0, 50, 100, 150, 200` its fire times are spaced
at least `100 ms` apart. -/
theorem C8_due_spec_witness :
    ((⟨0x40800000, 4, 10, 0, true⟩ : StreamConfig).should_sample 100).1 = true ∧
    List.Chain'
      (fun a b => 1000 / (⟨0x40800000, 4, 10, 0, true⟩ : StreamConfig).rate_hz ≤ b - a)
      (fire_times ⟨0x40800000, 4, 10, 0, true⟩ [0, 50, 100, 150, 200]) :=
  ⟨((C8_due_spec.1 ⟨0x40800000, 4, 10, 0, true⟩ 100 (by decide)).1).mpr (by decide),
   C8_due_spec.2 ⟨0x40800000, 4, 10, 0, true⟩ [0, 50, 100, 150, 200]
     (by decide) (by decide)⟩

/-- C10.  `add_stream` never rejects an already-registered address: with
free capacity remaining (two disabled entries, at positions `f1` and `f2`
after fully-enabled runs `P` and `M`, where no entry of the prefix `P`
carries address `a`), two
adds of the same address `a` both succeed and enable two distinct entries
carrying `a`, and a single remove of `a` disables only the lower-index one
of them, leaving the other enabled. -/
theorem C10_duplicate_add_remove (P M R : List StreamConfig)
    (f1 f2 : StreamConfig) (a sz r : Nat)
    (hP : ∀ s ∈ P, s.enabled = true) (hM : ∀ s ∈ M, s.enabled = true)
    (hf1 : f1.enabled = false) (hf2 : f2.enabled = false)
    (hPa : ∀ s ∈ P, s.addr ≠ a) :
    add_stream (P ++ f1 :: (M ++ f2 :: R)) a sz r =
      (P ++ { addr := a, size := sz, rate_hz := r, last_sample_ms := 0,
              enabled := true } :: (M ++ f2 :: R), none) ∧
    add_stream (P ++ { addr := a, size := sz, rate_hz := r,
                       last_sample_ms := 0,
                       enabled := true } :: (M ++ f2 :: R)) a sz r =
      (P ++ { addr := a, size := sz, rate_hz := r, last_sample_ms := 0,
              enabled := true } ::
        (M ++ { addr := a, size := sz, rate_hz := r, last_sample_ms := 0,
                enabled := true } :: R), none) ∧
    remove_stream (P ++ { addr := a, size := sz, rate_hz := r,
                          last_sample_ms := 0, enabled := true } ::
      (M ++ { addr := a, size := sz, rate_hz := r, last_sample_ms := 0,
              enabled := true } :: R)) a =
      (P ++ { addr := a, size := sz, rate_hz := r, last_sample_ms := 0,
              enabled := false } ::
        (M ++ { addr := a, size := sz, rate_hz := r, last_sample_ms := 0,
                enabled := true } :: R), none) := by
  refine ⟨?_, ?_, ?_⟩
  · rw [add_stream_append_enabled P (f1 :: (M ++ f2 :: R)) hP a sz r,
      add_stream_cons_free f1 (M ++ f2 :: R) hf1 a sz r]
  · have hPE : ∀ s ∈ P ++ [({ addr := a, size := sz, rate_hz := r,
                              last_sample_ms := 0,
                              enabled := true } : StreamConfig)],
        s.enabled = true := by
      intro s hs
      rcases List.mem_append.mp hs with h | h
      · exact hP s h
      · rcases List.mem_singleton.mp h with rfl
        rfl
    have hassoc : P ++ ({ addr := a, size := sz, rate_hz := r,
                          last_sample_ms := 0,
                          enabled := true } : StreamConfig) :: (M ++ f2 :: R) =
        (P ++ [({ addr := a, size := sz, rate_hz := r, last_sample_ms := 0,
                  enabled := true } : StreamConfig)]) ++ (M ++ f2 :: R) := by
      simp
    rw [hassoc,
      add_stream_append_enabled _ (M ++ f2 :: R) hPE a sz r,
      add_stream_append_enabled M (f2 :: R) hM a sz r,
      add_stream_cons_free f2 R hf2 a sz r]
    simp
  · have hskip : ∀ s ∈ P, s.enabled = false ∨ s.addr ≠ a := by
      intro s hs
      exact Or.inr (hPa s hs)
    rw [remove_stream_append_skip P _ a hskip,
      remove_stream_cons_match _ _ a rfl rfl]

/-- Witness for C10: from a fresh two-entry stretch of the empty table,
add `0x40800000` twice, then remove it once; entry 0 is disabled, entry 1
keeps streaming that address. -/
theorem C10_duplicate_add_remove_witness :
    remove_stream
        ([] ++ { addr := 0x40800000, size := 4, rate_hz := 10,
                 last_sample_ms := 0, enabled := true } ::
          ([] ++ { addr := 0x40800000, size := 4, rate_hz := 10,
                   last_sample_ms := 0, enabled := true } :: [])) 0x40800000 =
      ([] ++ { addr := 0x40800000, size := 4, rate_hz := 10,
               last_sample_ms := 0, enabled := false } ::
        ([] ++ { addr := 0x40800000, size := 4, rate_hz := 10,
                 last_sample_ms := 0, enabled := true } :: []), none) :=
  (C10_duplicate_add_remove [] [] [] StreamConfig.new StreamConfig.new
    0x40800000 4 10 (by decide) (by decide) (by decide) (by decide)
    (by decide)).2.2

/-- The records emitted by a `process_command` outcome (`[]` for the
panic case, which emits nothing). -/
def respOf (o : Option (List Rec × List StreamConfig)) : List Rec :=
  (o.map Prod.fst).getD []

lemma dispatch_isSome (tbl : List StreamConfig) (ts : List String)
    (h : ts.length ≤ 8) : (dispatch tbl ts).isSome = true := by
  cases ts with
  | nil => rfl
  | cons verb args =>
    simp only [dispatch]
    rw [if_neg (by simp only [List.length_cons] at h ⊢; omega)]
    repeat' split
    all_goals rfl

lemma leaf_single (o : Option (List Rec × List StreamConfig))
    (tbl' : List StreamConfig) (r : Rec) (P Q : Prop)
    (ho : o = some ([r], tbl')) (hP : ¬P) (hr : r.isOkOrError = true ∨ Q) :
    o.isSome = true ∧ (respOf o).length ≤ 1 ∧ (respOf o = [] ↔ P) ∧
    (∀ x ∈ respOf o, x.isOkOrError = true ∨ Q) := by
  subst ho
  refine ⟨rfl, by simp [respOf], iff_of_false (by simp [respOf]) hP, ?_⟩
  intro x hx
  simp [respOf] at hx
  rw [hx]
  exact hr

lemma dispatch_cons_spec (tbl : List StreamConfig) (verb : String)
    (args : List String) (h8 : (verb :: args).length ≤ 8) :
    (dispatch tbl (verb :: args)).isSome = true ∧
    (respOf (dispatch tbl (verb :: args))).length ≤ 1 ∧
    (respOf (dispatch tbl (verb :: args)) = [] ↔
      verb = "STOP" ∧ ∃ a rest, args = a :: rest ∧ parseAddr a = none) ∧
    (∀ x ∈ respOf (dispatch tbl (verb :: args)),
      x.isOkOrError = true ∨ verb = "PING" ∨ verb = "HELP" ∨ verb = "LIST") := by
  simp only [dispatch]
  rw [if_neg (by simp only [List.length_cons] at h8 ⊢; omega)]
  by_cases h1 : verb = "PING"
  · rw [if_pos h1]
    refine leaf_single _ tbl .pong _ _ rfl ?_ (Or.inr (Or.inl h1))
    rintro ⟨hstop, -⟩
    rw [h1] at hstop
    exact absurd hstop (by decide)
  · rw [if_neg h1]
    by_cases h2 : verb = "STREAM"
    · rw [if_pos h2]
      have hnotStop : ¬(verb = "STOP" ∧
          ∃ a rest, args = a :: rest ∧ parseAddr a = none) := by
        rintro ⟨hstop, -⟩
        rw [h2] at hstop
        exact absurd hstop (by decide)
      rcases args with _ | ⟨a, _ | ⟨b, _ | ⟨c, rest⟩⟩⟩
      · exact leaf_single _ tbl (.errUnknown verb) _ _ rfl hnotStop (Or.inl rfl)
      · exact leaf_single _ tbl (.errUnknown verb) _ _ rfl hnotStop (Or.inl rfl)
      · exact leaf_single _ tbl (.errUnknown verb) _ _ rfl hnotStop (Or.inl rfl)
      · cases hpa : parseAddr a with
        | none =>
          refine leaf_single _ tbl .errInvalidParams _ _ ?_ hnotStop (Or.inl rfl)
          simp [hpa]
        | some addr =>
          cases hps : parseDec b with
          | none =>
            refine leaf_single _ tbl .errInvalidParams _ _ ?_ hnotStop
              (Or.inl rfl)
            simp [hpa, hps]
          | some sv =>
            cases hpr : parseDec c with
            | none =>
              refine leaf_single _ tbl .errInvalidParams _ _ ?_ hnotStop
                (Or.inl rfl)
              simp [hpa, hps, hpr]
            | some rv =>
              cases hr2 : (add_stream tbl addr sv rv).2 with
              | none =>
                refine leaf_single _ (add_stream tbl addr sv rv).1
                  (.okStream addr) _ _ ?_ hnotStop (Or.inl rfl)
                simp [hpa, hps, hpr, hr2]
              | some e =>
                refine leaf_single _ (add_stream tbl addr sv rv).1
                  (.errStream e) _ _ ?_ hnotStop (Or.inl rfl)
                simp [hpa, hps, hpr, hr2]
    · rw [if_neg h2]
      by_cases h3 : verb = "STOP"
      · rw [if_pos h3]
        rcases args with _ | ⟨a, rest⟩
        · refine leaf_single _ tbl (.errUnknown verb) _ _ rfl ?_ (Or.inl rfl)
          rintro ⟨-, a, rest, heq, -⟩
          exact List.cons_ne_nil a rest heq.symm
        · cases hpa : parseAddr a with
          | none =>
            refine ⟨by simp [hpa], by simp [respOf, hpa],
              iff_of_true (by simp [respOf, hpa]) ⟨h3, a, rest, rfl, hpa⟩, ?_⟩
            intro x hx
            simp [respOf, hpa] at hx
          | some addr =>
            have hnotFail : ¬(verb = "STOP" ∧
                ∃ a' rest', a :: rest = a' :: rest' ∧ parseAddr a' = none) := by
              rintro ⟨-, a', rest', heq, hpa'⟩
              injection heq with ha hrest
              rw [← ha, hpa] at hpa'
              exact Option.noConfusion hpa'
            cases hr2 : (remove_stream tbl addr).2 with
            | none =>
              refine leaf_single _ (remove_stream tbl addr).1 (.okStop addr)
                _ _ ?_ hnotFail (Or.inl rfl)
              simp [hpa, hr2]
            | some e =>
              refine leaf_single _ (remove_stream tbl addr).1 (.errStop e)
                _ _ ?_ hnotFail (Or.inl rfl)
              simp [hpa, hr2]
      · rw [if_neg h3]
        by_cases h4 : verb = "HELP"
        · rw [if_pos h4]
          refine leaf_single _ tbl .helpRec _ _ rfl ?_
            (Or.inr (Or.inr (Or.inl h4)))
          rintro ⟨hstop, -⟩
          exact h3 hstop
        · rw [if_neg h4]
          by_cases h5 : verb = "LIST"
          · rw [if_pos h5]
            refine leaf_single _ tbl .varsRec _ _ rfl ?_
              (Or.inr (Or.inr (Or.inr h5)))
            rintro ⟨hstop, -⟩
            exact h3 hstop
          · rw [if_neg h5]
            refine leaf_single _ tbl (.errUnknown verb) _ _ rfl ?_ (Or.inl rfl)
            rintro ⟨hstop, -⟩
            exact h3 hstop

/-- C4 counterexample.  A line with nine whitespace-separated tokens makes
`process_command` collect them into `heapless::Vec<&str, 8>`, whose
`FromIterator` panics (`"Vec::from_iter overflow"`, modelled as `none`):
the excess tokens are not ignored, the firmware panics. -/
theorem C4_nine_token_panic_cx :
    process_command emptyTable "PING 1 2 3 4 5 6 7 8" = none ∧
    (tokens "PING 1 2 3 4 5 6 7 8").length = 9 := by
  decide

/-- C4 (amended).  Parsing never panics for lines of at most 8
whitespace-separated tokens (`memory_streamer_v2.rs` panics beyond that,
in the bounded `collect`); a blank or all-whitespace line produces no
request, no response and no table change; lesson 07's `parse_command` is
total, returns no command for a blank line, and ignores argument tokens
beyond `MAX_ARGS`, truncating to the first four. -/
theorem C4_parsing_total_amended :
    (∀ (tbl : List StreamConfig) (line : String),
      (tokens line).length ≤ 8 → (process_command tbl line).isSome = true) ∧
    (∀ (tbl : List StreamConfig) (line : String),
      tokens line = [] → process_command tbl line = some ([], tbl)) ∧
    (∀ line : String, tokens line = [] → parse_command line = none) ∧
    (∀ (line : String) (n : String) (rest : List String),
      tokens line = n :: rest →
        parse_command line = some (n, rest.take MAX_ARGS)) := by
  refine ⟨?_, ?_, ?_, ?_⟩
  · intro tbl line h
    exact dispatch_isSome tbl (tokens line) h
  · intro tbl line h
    show dispatch tbl (tokens line) = some ([], tbl)
    rw [h]
    rfl
  · intro line h
    unfold parse_command
    rw [h]
  · intro line n rest h
    unfold parse_command
    rw [h]
    simp only [pushArgs_eq rest [], List.length_nil, Nat.sub_zero,
      List.nil_append]

/-- Witness for C4: a six-token `imu_stream` line parses with the trailing
arguments beyond four ignored. -/
theorem C4_parsing_total_amended_witness :
    parse_command "imu_stream 50 1 2 3 4" =
      some ("imu_stream", ["50", "1", "2", "3"]) :=
  C4_parsing_total_amended.2.2.2 "imu_stream 50 1 2 3 4" "imu_stream"
    ["50", "1", "2", "3", "4"] (by decide)

/-- C9 counterexample.  The complete non-blank line `STOP zz` has a
recognized verb with a malformed address argument, but `process_command`
emits zero response records (the failed parse falls through silently), not
the claimed exactly-one error response. -/
theorem C9_stop_silent_cx :
    process_command emptyTable "STOP zz" = some ([], emptyTable) ∧
    tokens "STOP zz" = ["STOP", "zz"] := by
  decide

/-- C9 (amended).  During the input drain, a complete non-blank line of at
most 8 tokens produces at most one response record, and it produces none
exactly when the verb is `STOP` and the address argument fails to parse —
in every other case (including `STOP` with a parseable address) exactly
one record is emitted; and the response is an `OK|`/`ERROR|` record except
for the verbs `PING`, `HELP` and `LIST`, whose single records are `PONG`,
`HELP|...` and `VARS|...`. -/
theorem C9_response_discipline (tbl : List StreamConfig) (line : String)
    (h8 : (tokens line).length ≤ 8) (hne : tokens line ≠ []) :
    (process_command tbl line).isSome = true ∧
    (respOf (process_command tbl line)).length ≤ 1 ∧
    (respOf (process_command tbl line) = [] ↔
      ∃ a rest, tokens line = "STOP" :: a :: rest ∧ parseAddr a = none) ∧
    (∀ x ∈ respOf (process_command tbl line),
      x.isOkOrError = true ∨ (tokens line).head? = some "PING" ∨
        (tokens line).head? = some "HELP" ∨
        (tokens line).head? = some "LIST") := by
  rcases hts : tokens line with _ | ⟨verb, args⟩
  · exact absurd hts hne
  · have key := dispatch_cons_spec tbl verb args (by rw [hts] at h8; exact h8)
    show (dispatch tbl (tokens line)).isSome = true ∧ _
    rw [show process_command tbl line = dispatch tbl (tokens line) from rfl, hts]
    simp only [List.head?_cons]
    refine ⟨key.1, key.2.1, ?_, ?_⟩
    · rw [key.2.2.1]
      constructor
      · rintro ⟨hstop, a, rest2, hargs, hpa⟩
        exact ⟨a, rest2, by rw [hstop, hargs], hpa⟩
      · rintro ⟨a, rest2, heq, hpa⟩
        injection heq with hv hrest
        exact ⟨hv, a, rest2, hrest, hpa⟩
    · intro x hx
      rcases key.2.2.2 x hx with h | h | h | h
      · exact Or.inl h
      · exact Or.inr (Or.inl (by rw [h]))
      · exact Or.inr (Or.inr (Or.inl (by rw [h])))
      · exact Or.inr (Or.inr (Or.inr (by rw [h])))

/-- Witness for C9: `PING` yields a response list of length at most one. -/
theorem C9_response_discipline_witness :
    (process_command emptyTable "PING").isSome = true ∧
    (respOf (process_command emptyTable "PING")).length ≤ 1 :=
  ⟨(C9_response_discipline emptyTable "PING" (by decide) (by decide)).1,
   (C9_response_discipline emptyTable "PING" (by decide) (by decide)).2.1⟩

end MemStreamer

